import Mathlib

/-!
Verification of the Localkit session/orchestration layer (src/localkit.js).

JavaScript strings are embedded as lists of characters (`JStr`), JS objects
used as string-keyed dictionaries as association lists in insertion order,
and promises as `Except` results (wrapped in `Option` where a promise can
stay pending forever).  External collaborators (the Monaca cloud identity
service, the filesystem, the filesystem watcher, UDP sockets) are modelled
as explicit environment parameters, so every operation of the core is a
pure function from an environment and a state to a result and a new state.
-/

set_option autoImplicit false

/-- A JavaScript string, embedded as its list of characters. -/
abbrev JStr := List Char

/-- The character list of the literal `www`. -/
def wwwJ : JStr := "www".toList

/-- Split a character list at every `/` (JS `String.prototype.split` with
separator `/`): returns the chunks between slashes, keeping empty chunks. -/
def splitSlash : JStr → List JStr
  | [] => [[]]
  | c :: rest =>
    if c = '/' then [] :: splitSlash rest
    else
      match splitSlash rest with
      | [] => [[c]]
      | g :: gs => (c :: g) :: gs

/-- Does a chunk begin with a dot? -/
def startsDot : JStr → Bool
  | [] => false
  | c :: _ => c = '.'

/-- One pass of Node `path.normalize` over the already-split components of an
absolute path: drops empty and `.` components and lets `..` pop the previous
component (popping past the root is dropped, as for absolute paths). -/
def normLoop : List JStr → List JStr → List JStr
  | stack, [] => stack.reverse
  | stack, c :: cs =>
    if c = [] ∨ c = ['.'] then normLoop stack cs
    else if c = ['.', '.'] then normLoop stack.tail cs
    else normLoop (c :: stack) cs

/-- Node `path.resolve` on an absolute POSIX path: canonical form with a
single leading slash, no `.`/`..`/empty components, no trailing slash. -/
def resolveAbs (l : JStr) : JStr :=
  '/' :: List.intercalate ['/'] (normLoop [] (splitSlash l))

/-- Node `path.join a b` followed by `path.resolve`, for an absolute `a`:
concatenate with a slash and canonicalize. -/
def joinPath (a b : JStr) : JStr := resolveAbs (a ++ '/' :: b)

/-- The error taxonomy of the Localkit core.  Each constructor corresponds to
one rejection site in src/localkit.js and carries the data interpolated into
the message string there. -/
inductive Err where
  /-- readProjectFile: rejection message naming the unknown project id. -/
  | noProject (id : JStr)
  /-- addProject: the project path has no `www` subdirectory. -/
  | missingWww (p : JStr)
  /-- readProjectFile: `File is outside of project path.` -/
  | pathTraversal
  /-- readProjectFile: the (original) file path does not exist. -/
  | notExist (p : JStr)
  /-- readProjectFile: the joined path is a directory. -/
  | isDirectory (p : JStr)
  /-- A filesystem read/write error forwarded to the caller. -/
  | ioError (e : JStr)
  /-- An exception thrown by FileWatcher run/stop, forwarded to the caller. -/
  | watcherError (e : JStr)
  /-- An error propagated from the Monaca cloud collaborator. -/
  | collaborator (e : JStr)
  /-- startWatchProject and friends: `No such project.` -/
  | noSuchProject
  /-- startBeaconTransmitter: `Must be logged in to use this method.` -/
  | notLoggedIn
deriving DecidableEq

instance {ε α : Type} [DecidableEq ε] [DecidableEq α] : DecidableEq (Except ε α) :=
  fun a b =>
    match a, b with
    | .error e, .error f =>
      if h : e = f then isTrue (by rw [h]) else isFalse (by simp [h])
    | .ok x, .ok y =>
      if h : x = y then isTrue (by rw [h]) else isFalse (by simp [h])
    | .error _, .ok _ => isFalse (fun hc => Except.noConfusion hc)
    | .ok _, .error _ => isFalse (fun hc => Except.noConfusion hc)

/-- One registered project: the running state of its exclusively owned
file watcher and its root path. -/
structure Project where
  fileWatcherRunning : Bool
  path : JStr
deriving DecidableEq, Inhabited

/-- The mutable state of one Localkit object. -/
structure LocalkitState where
  /-- `this.projects`: map from project id to project, in insertion order. -/
  projects : List (JStr × Project)
  /-- `this._isWatching`, the process-wide global watch flag. -/
  isWatchingFlag : Bool
  /-- `this.pairingKeys`, the in-memory pairing key map. -/
  pairingKeys : List (JStr × JStr)
  /-- The persisted pairing-keys file content (`none` = file absent). -/
  pairingFile : Option (List (JStr × JStr))
  /-- The bound port of the HTTP listener (`none` = no listener bound,
  so `this.server.address().port` throws). -/
  server : Option Nat
  /-- `this._interval`: whether the recurring beacon timer is armed. -/
  interval : Bool
  /-- `this.beaconTransmitterRunning`. -/
  beaconTransmitterRunning : Bool
  /-- `this.httpServerRunning`. -/
  httpServerRunning : Bool
deriving DecidableEq

/-- The external collaborators, as oracle functions. -/
structure Env where
  /-- `monaca.getLocalProjectId`: resolve a path to a stable project id. -/
  pid : JStr → Except Err JStr
  /-- `fs.existsSync(path.join(p, "www"))`, keyed by the project path. -/
  hasWww : JStr → Bool
  /-- Exception thrown by `fileWatcher.run(dir)` (`none` = starts fine),
  keyed by the watched directory. -/
  runThrows : JStr → Option JStr
  /-- Exception thrown by `fileWatcher.stop()` (`none` = stops fine),
  keyed by the owning project id. -/
  stopThrows : JStr → Option JStr
  /-- `monaca.getLocalProjectFiles`: the file enumeration for a project
  path, a map from file path keys to file data. -/
  localFiles : JStr → Except Err (List (JStr × JStr))
  /-- Error of `fs.writeFile(PAIRING_KEYS_FILE, ...)` (`none` = success). -/
  writeFileFails : Option JStr
  /-- `broadcastAddresses()`: the local broadcast-capable addresses. -/
  addresses : List JStr
  /-- Whether the UDP send to a given address errors (isolated, logged). -/
  sendFails : JStr → Bool
  /-- `monaca._loggedIn`. -/
  loggedIn : Bool

/-- The filesystem oracle consulted by `readProjectFile` after the traversal
guard has passed. -/
structure FS where
  fsExists : JStr → Bool
  isDir : JStr → Bool
  readFile : JStr → Except JStr JStr

/-- `Localkit.prototype.isWatching`: returns the cached global flag. -/
def isWatching (st : LocalkitState) : Bool := st.isWatchingFlag

/-- Strip a single leading `/` from a client-supplied relative path
(the `charAt(0) === '/'` check in readProjectFile). -/
def stripSlash : JStr → JStr
  | '/' :: rest => rest
  | l => l

/-- `Localkit.prototype.readProjectFile`: look the project up, strip one
leading slash from the client path, join with the project root, canonicalize
both, reject with `pathTraversal` unless the canonical file path begins with
the canonical project root, and only then consult the filesystem. -/
def readProjectFile (fs : FS) (st : LocalkitState) (projectId filePath : JStr) :
    Except Err JStr :=
  match st.projects.lookup projectId with
  | none => .error (.noProject projectId)
  | some project =>
    let projectPath := project.path
    let origFilePath := filePath
    let joined := joinPath projectPath (stripSlash filePath)
    let absoluteFilePath := resolveAbs joined
    let absoluteProjectPath := resolveAbs projectPath
    if absoluteProjectPath.isPrefixOf absoluteFilePath = false then
      .error .pathTraversal
    else if fs.fsExists joined = false then
      .error (.notExist origFilePath)
    else if fs.isDir joined then
      .error (.isDirectory joined)
    else
      match fs.readFile joined with
      | .error e => .error (.ioError e)
      | .ok data => .ok data

/-- The spec-side containment predicate for the traversal guard, following
the words of the claim: the canonical file path lies within the canonical
root, i.e. it is the root itself or sits strictly below it with a path
separator at the boundary. -/
def liesWithin (root target : JStr) : Bool :=
  target = root || (root ++ ['/']).isPrefixOf target

/-- `Localkit.prototype.addProject`: resolve the id through the cloud
collaborator; reject when the project path has no `www` subdirectory;
resolve idempotently when the id is already registered; otherwise create a
watcher, start it only when the global watch flag is set (a thrown start
rejects and leaves no entry), and append the new entry. -/
def addProject (env : Env) (st : LocalkitState) (projectPath : JStr) :
    Except Err JStr × LocalkitState :=
  match env.pid projectPath with
  | .error e => (.error e, st)
  | .ok projectId =>
    if env.hasWww projectPath = false then
      (.error (.missingWww projectPath), st)
    else if (st.projects.lookup projectId).isSome then
      (.ok projectId, st)
    else if st.isWatchingFlag then
      match env.runThrows (joinPath projectPath wwwJ) with
      | some e => (.error (.watcherError e), st)
      | none =>
        (.ok projectId,
         { st with projects := st.projects ++ [(projectId, ⟨true, projectPath⟩)] })
    else
      (.ok projectId,
       { st with projects := st.projects ++ [(projectId, ⟨false, projectPath⟩)] })

/-- Drop every entry with the given key (JS `delete this.projects[id]`). -/
def dropId (projects : List (JStr × Project)) (projectId : JStr) :
    List (JStr × Project) :=
  projects.filter (fun kv => kv.1 ≠ projectId)

/-- `Localkit.prototype.removeProject`: resolve the id; when it is
registered, stop the watcher (a thrown stop rejects and keeps the entry) and
drop the entry.  When the id is not registered the deferred promise is never
resolved nor rejected, so the promise stays pending forever: that outcome is
`none`. -/
def removeProject (env : Env) (st : LocalkitState) (projectPath : JStr) :
    Option (Except Err JStr) × LocalkitState :=
  match env.pid projectPath with
  | .error e => (some (.error e), st)
  | .ok projectId =>
    match st.projects.lookup projectId with
    | none => (none, st)
    | some _ =>
      match env.stopThrows projectId with
      | some e => (some (.error (.watcherError e)), st)
      | none =>
        (some (.ok projectId), { st with projects := dropId st.projects projectId })

/-- Mark the watcher of the entry with the given key as running/idle. -/
def setWatcher (projects : List (JStr × Project)) (projectId : JStr) (b : Bool) :
    List (JStr × Project) :=
  projects.map (fun kv =>
    if kv.1 = projectId then (kv.1, { kv.2 with fileWatcherRunning := b }) else kv)

/-- The loop body of `startWatch`: try to start each idle watcher, pushing
the watch directory on success and only logging on a thrown start. -/
def startWatchLoop (env : Env) (acc : List JStr × List JStr) :
    List (JStr × Project) → List JStr × List JStr
  | [] => acc
  | kv :: rest =>
    let watchDir := joinPath kv.2.path wwwJ
    match env.runThrows watchDir with
    | some _ => startWatchLoop env acc rest
    | none => startWatchLoop env (acc.1 ++ [watchDir], acc.2 ++ [kv.1]) rest

/-- `Localkit.prototype.startWatch`: for every registered project whose
watcher is idle, try to start it against its `www` directory; a thrown start
is logged and skipped.  Always resolves, with the list of directories
actually attached to, and unconditionally clears the global watch flag. -/
def startWatch (env : Env) (st : LocalkitState) :
    Except Err (List JStr) × LocalkitState :=
  let idleEntries := st.projects.filter (fun kv => kv.2.fileWatcherRunning = false)
  let (paths, started) := startWatchLoop env ([], []) idleEntries
  (.ok paths,
   { st with
       projects := st.projects.map (fun kv =>
         if started.contains kv.1 then
           (kv.1, { kv.2 with fileWatcherRunning := true })
         else kv),
       isWatchingFlag := false })

/-- `Q.all`: resolves with the list of values when every promise resolved,
otherwise rejects with the error of the first rejected promise. -/
def qAll {α : Type} : List (Except Err α) → Except Err (List α)
  | [] => .ok []
  | .error e :: _ => .error e
  | .ok v :: rest =>
    match qAll rest with
    | .ok vs => .ok (v :: vs)
    | .error e => .error e

/-- `Localkit.prototype.stopWatch`: the `.map` callback synchronously stops
every running watcher (collecting one settled promise per project), then
`Q.all` aggregates; only on aggregate success is the global flag cleared. -/
def stopWatch (env : Env) (st : LocalkitState) :
    Except Err (List JStr) × LocalkitState :=
  let running := st.projects.filter (fun kv => kv.2.fileWatcherRunning = true)
  let outcomes : List (Except Err JStr) := running.map (fun kv =>
    match env.stopThrows kv.1 with
    | some e => .error (.watcherError e)
    | none => .ok kv.2.path)
  let projects1 := st.projects.map (fun kv =>
    if kv.2.fileWatcherRunning = true ∧ (env.stopThrows kv.1).isNone then
      (kv.1, { kv.2 with fileWatcherRunning := false })
    else kv)
  match qAll outcomes with
  | .ok pathsList =>
    (.ok pathsList, { st with projects := projects1, isWatchingFlag := false })
  | .error e => (.error e, { st with projects := projects1 })

/-- `Localkit.prototype.startWatchProject`: find the project by path
(first match); reject with `noSuchProject` when absent; start the watcher
only when idle (idempotent otherwise); resolve with the watch directory. -/
def startWatchProject (env : Env) (st : LocalkitState) (projectDir : JStr) :
    Except Err JStr × LocalkitState :=
  match (st.projects.filter (fun kv => kv.2.path = projectDir)).head? with
  | none => (.error .noSuchProject, st)
  | some kv =>
    let watchDir := joinPath kv.2.path wwwJ
    if kv.2.fileWatcherRunning then (.ok watchDir, st)
    else
      match env.runThrows watchDir with
      | some e => (.error (.watcherError e), st)
      | none => (.ok watchDir, { st with projects := setWatcher st.projects kv.1 true })

/-- `Localkit.prototype.stopWatchProject`: symmetric to
`startWatchProject` for stopping. -/
def stopWatchProject (env : Env) (st : LocalkitState) (projectDir : JStr) :
    Except Err JStr × LocalkitState :=
  match (st.projects.filter (fun kv => kv.2.path = projectDir)).head? with
  | none => (.error .noSuchProject, st)
  | some kv =>
    let watchDir := joinPath kv.2.path wwwJ
    if kv.2.fileWatcherRunning then
      match env.stopThrows kv.1 with
      | some e => (.error (.watcherError e), st)
      | none => (.ok watchDir, { st with projects := setWatcher st.projects kv.1 false })
    else (.ok watchDir, st)

/-- The first stage of `setProjects`: `Q.all` over
`monaca.getLocalProjectId` for every listed path, pairing each path with its
resolved id; rejects with the first resolution error. -/
def resolveAll (env : Env) : List JStr → Except Err (List (JStr × JStr))
  | [] => .ok []
  | p :: ps =>
    match env.pid p with
    | .error e => .error e
    | .ok i =>
      match resolveAll env ps with
      | .error e => .error e
      | .ok rest => .ok ((p, i) :: rest)

/-- Run `addProject` for each path in turn, collecting the outcomes. -/
def runAdds (env : Env) : LocalkitState → List JStr →
    List (Except Err JStr) × LocalkitState
  | st, [] => ([], st)
  | st, p :: ps =>
    let (r, st1) := addProject env st p
    let (rs, st2) := runAdds env st1 ps
    (r :: rs, st2)

/-- Run `removeProject` for each path in turn, collecting the outcomes
(`none` = that promise never settles). -/
def runRemoves (env : Env) : LocalkitState → List JStr →
    List (Option (Except Err JStr)) × LocalkitState
  | st, [] => ([], st)
  | st, p :: ps =>
    let (r, st1) := removeProject env st p
    let (rs, st2) := runRemoves env st1 ps
    (r :: rs, st2)

/-- `Q.all` over promises that may stay pending: a rejection wins over a
pending promise (Q.all fails fast), and the aggregate stays pending when no
promise rejects but some never settles. -/
def qAllOpt : List (Option (Except Err JStr)) → Option (Except Err (List JStr))
  | [] => some (.ok [])
  | some (.error e) :: _ => some (.error e)
  | some (.ok v) :: rest =>
    match qAllOpt rest with
    | some (.ok vs) => some (.ok (v :: vs))
    | r => r
  | none :: rest =>
    match qAllOpt rest with
    | some (.error e) => some (.error e)
    | _ => none

/-- `Localkit.prototype.setProjects`: resolve ids for the whole target list;
then add every listed path whose id is not yet registered and remove every
registered path absent from the list (the removal set is computed from the
registry as it was when the call began), aggregating all outcomes with
`Q.all`.  The additions and removals act on disjoint ids, so running them
here in sequence is one linearization of the concurrent original. -/
def addPathsOf (st : LocalkitState) (pairs : List (JStr × JStr)) : List JStr :=
  (pairs.filter (fun pi => (st.projects.lookup pi.2).isNone)).map Prod.fst

def removePathsOf (st : LocalkitState) (pathList : List JStr) : List JStr :=
  (st.projects.filter
    (fun kv => pathList.contains kv.2.path = false)).map (fun kv => kv.2.path)

def setProjects (env : Env) (st : LocalkitState) (pathList : List JStr) :
    Option (Except Err (List JStr)) × LocalkitState :=
  match resolveAll env pathList with
  | .error e => (some (.error e), st)
  | .ok pairs =>
    let addPaths := addPathsOf st pairs
    let removePaths := removePathsOf st pathList
    let (addRes, st1) := runAdds env st addPaths
    let (remRes, st2) := runRemoves env st1 removePaths
    (qAllOpt (addRes.map some ++ remRes), st2)

/-- The per-item promise outcomes of one `setProjects` call, in the order
the promises are pushed (additions first, then removals). -/
def setProjectsOutcomes (env : Env) (st : LocalkitState) (pathList : List JStr) :
    List (Option (Except Err JStr)) :=
  match resolveAll env pathList with
  | .error _ => []
  | .ok pairs =>
    let addPaths := addPathsOf st pairs
    let removePaths := removePathsOf st pathList
    let (addRes, st1) := runAdds env st addPaths
    (addRes.map some ++ (runRemoves env st1 removePaths).1)

/-- `Localkit.prototype.clearPairing`: reset the in-memory pairing key map
to the empty object, then rewrite the persisted file in full; a failed write
rejects but the in-memory reset stays in effect. -/
def clearPairing (env : Env) (st : LocalkitState) :
    Except Err Unit × LocalkitState :=
  let st1 := { st with pairingKeys := [] }
  match env.writeFileFails with
  | some e => (.error (.ioError e), st1)
  | none => (.ok (), { st1 with pairingFile := some [] })

/-- `Localkit.prototype.startBeaconTransmitter`: rejects unless logged in;
otherwise arms the recurring timer and marks the transmitter running. -/
def startBeaconTransmitter (env : Env) (st : LocalkitState) :
    Except Err Unit × LocalkitState :=
  if env.loggedIn = false then (.error .notLoggedIn, st)
  else (.ok (), { st with interval := true, beaconTransmitterRunning := true })

/-- `Localkit.prototype.stopBeaconTransmitter`: clears the timer when armed;
always resolves. -/
def stopBeaconTransmitter (st : LocalkitState) :
    Except Err Unit × LocalkitState :=
  if st.interval then
    (.ok (), { st with interval := false, beaconTransmitterRunning := false })
  else (.ok (), st)

/-- What one tick of the beacon broadcast step did, besides mutating the
Localkit state. -/
structure BeaconTick where
  /-- Whether an exception escaped the tick (uncaught in the timer callback). -/
  threw : Bool
  /-- Whether the `Unable to get current port` condition was logged. -/
  loggedNoPort : Bool
  /-- The addresses to which a UDP send was issued this tick (one fresh
  socket per address; a send failure is isolated to its address). -/
  sends : List JStr
deriving DecidableEq

/-- `Localkit.prototype._sendBeacon`: reading the bound port throws when no
listener is bound; the catch block logs and stops the transmitter but does
not return, so building the payload dereferences the port again and throws
out of the tick before any socket is created.  With a bound listener the
payload is broadcast on every address, one socket per address. -/
def sendBeacon (env : Env) (st : LocalkitState) : BeaconTick × LocalkitState :=
  match st.server with
  | none =>
    let st1 := (stopBeaconTransmitter st).2
    ({ threw := true, loggedNoPort := true, sends := [] }, st1)
  | some _ =>
    ({ threw := false, loggedNoPort := false, sends := env.addresses }, st)

/-- `Localkit.prototype.startHttpServer`: bind the listener (a bind error
rejects and changes nothing); on success record the bound port and mark the
server running. -/
def startHttpServer (bindError : Option JStr) (st : LocalkitState) (port : Nat) :
    Except Err Unit × LocalkitState :=
  match bindError with
  | some e => (.error (.ioError e), st)
  | none => (.ok (), { st with server := some port, httpServerRunning := true })

/-- `Localkit.prototype.stopHttpServer`: close the listener (an error
rejects and changes nothing); on success the listener is gone and the
server is marked not running. -/
def stopHttpServer (closeError : Option JStr) (st : LocalkitState) :
    Except Err Unit × LocalkitState :=
  match closeError with
  | some e => (.error (.ioError e), st)
  | none => (.ok (), { st with server := none, httpServerRunning := false })

/-- The state set up by the `Localkit` constructor, with the persisted
pairing-keys file in an arbitrary initial condition. -/
def initState (d : Option (List (JStr × JStr))) : LocalkitState :=
  { projects := [], isWatchingFlag := false, pairingKeys := [], pairingFile := d,
    server := none, interval := false, beaconTransmitterRunning := false,
    httpServerRunning := false }

/-- The states a Localkit object can actually be in: the constructor state,
closed under every state-mutating operation of the core (with arbitrary
collaborator behavior at each step). -/
inductive Reachable : LocalkitState → Prop where
  | init (d : Option (List (JStr × JStr))) : Reachable (initState d)
  /-- The asynchronous constructor-time read of the pairing-keys file
  replaces the in-memory map with the parsed file content. -/
  | loadPairing {st : LocalkitState} (m : List (JStr × JStr)) :
      Reachable st → Reachable { st with pairingKeys := m }
  | add {st : LocalkitState} (env : Env) (p : JStr) :
      Reachable st → Reachable (addProject env st p).2
  | remove {st : LocalkitState} (env : Env) (p : JStr) :
      Reachable st → Reachable (removeProject env st p).2
  | startW {st : LocalkitState} (env : Env) :
      Reachable st → Reachable (startWatch env st).2
  | stopW {st : LocalkitState} (env : Env) :
      Reachable st → Reachable (stopWatch env st).2
  | startWP {st : LocalkitState} (env : Env) (p : JStr) :
      Reachable st → Reachable (startWatchProject env st p).2
  | stopWP {st : LocalkitState} (env : Env) (p : JStr) :
      Reachable st → Reachable (stopWatchProject env st p).2
  | setP {st : LocalkitState} (env : Env) (pl : List JStr) :
      Reachable st → Reachable (setProjects env st pl).2
  | clearP {st : LocalkitState} (env : Env) :
      Reachable st → Reachable (clearPairing env st).2
  | startBT {st : LocalkitState} (env : Env) :
      Reachable st → Reachable (startBeaconTransmitter env st).2
  | stopBT {st : LocalkitState} :
      Reachable st → Reachable (stopBeaconTransmitter st).2
  | beaconTick {st : LocalkitState} (env : Env) :
      Reachable st → Reachable (sendBeacon env st).2
  | startHttp {st : LocalkitState} (e : Option JStr) (port : Nat) :
      Reachable st → Reachable (startHttpServer e st port).2
  | stopHttp {st : LocalkitState} (e : Option JStr) :
      Reachable st → Reachable (stopHttpServer e st).2

/-- JS `fn.indexOf(hiddenMarker) >= 0` for the two-character marker of a
hidden segment: does the string contain a slash immediately followed by a
dot? -/
def hasDotSlash : JStr → Bool
  | [] => false
  | c :: rest => (c = '/' && startsDot rest) || hasDotSlash rest

/-- The regular-expression test in `getProjectFiles`: the key starts with a
slash and is then either rooted at `www/` or has no further slash up to the
end of the string. -/
def regexWwwTest : JStr → Bool
  | '/' :: rest => ("www/".toList).isPrefixOf rest || rest.contains '/' = false
  | _ => false

/-- The `fileFilter` closure of `Localkit.prototype.getProjectFiles`:
exclude hidden files and folders, then only include keys under the `www`
folder or bare top-level keys. -/
def fileFilter (fn : JStr) : Bool :=
  if hasDotSlash fn then false
  else regexWwwTest fn

/-- The copy loop of `getProjectFiles`: filter the key list, then rebuild
the dictionary by looking each surviving key up in the original map. -/
def getProjectFilesFrom (files : List (JStr × JStr)) : List (JStr × JStr) :=
  ((files.map Prod.fst).filter fileFilter).filterMap
    (fun fn => (files.lookup fn).map (fun v => (fn, v)))

/-- `Localkit.prototype.getProjectFiles`: reject when the id is not
registered; otherwise delegate enumeration to the cloud collaborator and
apply the file filter, forwarding a collaborator error unchanged. -/
def getProjectFiles (env : Env) (st : LocalkitState) (projectId : JStr) :
    Except Err (List (JStr × JStr)) :=
  match st.projects.lookup projectId with
  | none => .error (.noProject projectId)
  | some project =>
    match env.localFiles project.path with
    | .error e => .error e
    | .ok files => .ok (getProjectFilesFrom files)

/-- The path components of a key: the chunks between slashes, without the
empty chunks produced by the leading slash or doubled slashes. -/
def components (l : JStr) : List JStr := (splitSlash l).filter (fun c => c ≠ [])

/-- Spec-side filter (a): some path component begins with a dot. -/
def hasHiddenComponent (l : JStr) : Bool := (components l).any startsDot

/-- Spec-side filter (b), first disjunct: the key lives under the top-level
`www` content root. -/
def underWwwRoot (l : JStr) : Bool := ("/www/".toList).isPrefixOf l

/-- Spec-side filter (b), second disjunct: the key has no directory
component at all, i.e. nothing but a bare top-level file name after the
root separator. -/
def noDirComponent : JStr → Bool
  | '/' :: rest => rest.contains '/' = false
  | _ => false

theorem lookup_isSome_of_mem_keys {β : Type} {l : List (JStr × β)} {k : JStr}
    (h : k ∈ l.map Prod.fst) : (l.lookup k).isSome := by
  induction l with
  | nil => simp at h
  | cons kv rest ih =>
    simp only [List.map_cons, List.mem_cons] at h
    rcases h with h | h
    · simp [List.lookup, h.symm]
    · rw [List.lookup]
      cases hb : k == kv.1 <;> simp [ih h]

theorem mem_of_lookup_eq_some {β : Type} {l : List (JStr × β)} {k : JStr} {v : β}
    (h : l.lookup k = some v) : (k, v) ∈ l := by
  induction l with
  | nil => simp [List.lookup] at h
  | cons kv rest ih =>
    rw [List.lookup] at h
    cases hb : k == kv.1 with
    | true =>
      rw [hb] at h
      simp only [Option.some.injEq] at h
      have hk : k = kv.1 := by
        have := (beq_iff_eq (a := k) (b := kv.1)).mp hb
        exact this
      rw [List.mem_cons]
      exact Or.inl (by rw [hk, ← h])
    | false =>
      rw [hb] at h
      rw [List.mem_cons]
      exact Or.inr (ih h)


/-- A filesystem oracle where nothing exists. -/
def fsAbsent : FS := ⟨fun _ => false, fun _ => false, fun _ => .error []⟩

/-- A one-project registry whose root `/a/b` is a proper string prefix of
the sibling directory name `/a/bb`. -/
def stC1 : LocalkitState :=
  { initState none with projects := [(("p1").toList, ⟨false, ("/a/b").toList⟩)] }

/-- C1 as stated is refuted on the code: with project root `/a/b` the
client path `../bb/x` canonicalizes to `/a/bb/x`, which does not lie within
`/a/b`, yet `readProjectFile` does not fail with the path-traversal error,
because the code compares the two canonical strings by prefix and `/a/b`
is a string prefix of `/a/bb/x`. -/
theorem readProjectFile_liesWithin_cex :
    liesWithin (resolveAbs (("/a/b").toList))
      (resolveAbs (joinPath (("/a/b").toList)
        (stripSlash (("../bb/x").toList)))) = false ∧
    readProjectFile fsAbsent stC1 (("p1").toList) (("../bb/x").toList) ≠
      Except.error Err.pathTraversal :=
  ⟨by decide, by decide⟩

/-- C1 (amended): for a registered project, `readProjectFile` fails with
the path-traversal error exactly when the canonicalized join of the root
and the client path (after stripping one leading separator) does not begin,
as a string, with the canonicalized root; and when the guard rejects, the
result is the traversal error for every filesystem, so the filesystem is
consulted only after the check passes. -/
theorem readProjectFile_guard (fs : FS) (st : LocalkitState)
    (projectId filePath : JStr) (proj : Project)
    (h : st.projects.lookup projectId = some proj) :
    (readProjectFile fs st projectId filePath = .error .pathTraversal ↔
      (resolveAbs proj.path).isPrefixOf
        (resolveAbs (joinPath proj.path (stripSlash filePath))) = false) ∧
    ((resolveAbs proj.path).isPrefixOf
        (resolveAbs (joinPath proj.path (stripSlash filePath))) = false →
      ∀ fs2 : FS, readProjectFile fs2 st projectId filePath =
        .error .pathTraversal) := by
  cases hg : (resolveAbs proj.path).isPrefixOf
      (resolveAbs (joinPath proj.path (stripSlash filePath))) with
  | false =>
    refine ⟨by simp [readProjectFile, h, hg], fun _ fs2 => ?_⟩
    simp [readProjectFile, h, hg]
  | true =>
    refine ⟨?_, fun hcontra _ => ?_⟩
    · simp only [readProjectFile, h, hg]
      constructor
      · intro hc
        by_cases h1 : fs.fsExists (joinPath proj.path (stripSlash filePath)) = false
        · simp [h1] at hc
        · simp only [h1, if_false] at hc
          by_cases h2 : fs.isDir (joinPath proj.path (stripSlash filePath))
          · simp [h2] at hc
          · simp only [h2, if_false] at hc
            cases h3 : fs.readFile (joinPath proj.path (stripSlash filePath)) <;>
              simp [h3] at hc
      · intro hc
        exact absurd hc (by simp)
    · exact absurd hcontra (by simp)

/-- Witness for C1 at the examples named by the claim: `../../etc/passwd`
is rejected by the guard while `./index.html` passes it. -/
theorem readProjectFile_guard_witness :
    readProjectFile fsAbsent stC1 (("p1").toList) (("../../etc/passwd").toList) =
      Except.error Err.pathTraversal ∧
    readProjectFile fsAbsent stC1 (("p1").toList) (("./index.html").toList) ≠
      Except.error Err.pathTraversal := by
  constructor
  · exact (readProjectFile_guard fsAbsent stC1 (("p1").toList)
      (("../../etc/passwd").toList) ⟨false, ("/a/b").toList⟩ (by decide)).1.mpr
      (by decide)
  · intro hc
    have h2 := (readProjectFile_guard fsAbsent stC1 (("p1").toList)
      (("./index.html").toList) ⟨false, ("/a/b").toList⟩ (by decide)).1.mp hc
    exact absurd h2 (by decide)

/-- C3: for every path whose resolved project id is not registered,
`removeProject` leaves the registry (indeed the whole state) unchanged, but
its promise never settles: the code has no else branch for the absent-id
case, so the deferred is neither resolved nor rejected, where the spec
requires an UnknownProject rejection. -/
theorem removeProject_unknown_pending (env : Env) (st : LocalkitState)
    (p i : JStr) (h1 : env.pid p = .ok i)
    (h2 : st.projects.lookup i = none) :
    removeProject env st p = (none, st) := by
  simp [removeProject, h1, h2]

/-- A collaborator environment that resolves every path to the id `id1`,
with a well-behaved filesystem and watcher. -/
def envBase : Env :=
  { pid := fun _ => .ok (("id1").toList),
    hasWww := fun _ => true,
    runThrows := fun _ => none,
    stopThrows := fun _ => none,
    localFiles := fun _ => .ok [],
    writeFileFails := none,
    addresses := [],
    sendFails := fun _ => false,
    loggedIn := true }

/-- Witness for C3: on the empty registry, removing `/tmp/app` leaves the
promise pending and the state untouched. -/
theorem removeProject_unknown_pending_witness :
    removeProject envBase (initState none) (("/tmp/app").toList) =
      (none, initState none) :=
  removeProject_unknown_pending envBase (initState none) (("/tmp/app").toList)
    (("id1").toList) rfl (by decide)

/-- C7: when the resolved path has no `www` subdirectory, `addProject`
fails with the missing-content-root error and the whole state is unchanged;
and more generally every failing `addProject` call leaves the state exactly
as it was. -/
theorem addProject_missingWww_frame (env : Env) (st : LocalkitState) (p : JStr) :
    (∀ i, env.pid p = .ok i → env.hasWww p = false →
      addProject env st p = (.error (.missingWww p), st)) ∧
    (∀ e, (addProject env st p).1 = .error e → (addProject env st p).2 = st) := by
  constructor
  · intro i h1 h2
    simp [addProject, h1, h2]
  · intro e
    cases h1 : env.pid p with
    | error e2 => simp [addProject, h1]
    | ok i =>
      by_cases h2 : env.hasWww p = false
      · simp [addProject, h1, h2]
      · by_cases h3 : (st.projects.lookup i).isSome
        · simp [addProject, h1, h2, h3]
        · by_cases h4 : st.isWatchingFlag
          · cases h5 : env.runThrows (joinPath p wwwJ) with
            | some e2 => simp [addProject, h1, h2, h3, h4, h5]
            | none =>
              simp [addProject, h1, h2, h3, h4, h5]
          · simp [addProject, h1, h2, h3, h4]

/-- A collaborator environment where no path has a `www` subdirectory. -/
def envNoWww : Env := { envBase with hasWww := fun _ => false }

/-- Witness for C7: registering `/tmp/app` without a `www` directory fails
with the missing-content-root error and leaves the empty registry empty. -/
theorem addProject_missingWww_frame_witness :
    addProject envNoWww (initState none) (("/tmp/app").toList) =
      (.error (.missingWww (("/tmp/app").toList)), initState none) :=
  (addProject_missingWww_frame envNoWww (initState none)
    (("/tmp/app").toList)).1 (("id1").toList) rfl rfl

/-- C8: `clearPairing` always leaves the in-memory pairing-key map empty;
it succeeds exactly when the file write succeeds; on success the persisted
file holds the empty map; on a failed write the call rejects with the write
error, the persisted file is untouched, and the in-memory map is still
empty (no rollback). -/
theorem clearPairing_spec (env : Env) (st : LocalkitState) :
    ((clearPairing env st).2.pairingKeys = []) ∧
    ((clearPairing env st).1 = .ok () ↔ env.writeFileFails = none) ∧
    (env.writeFileFails = none →
      (clearPairing env st).2.pairingFile = some []) ∧
    (∀ e, env.writeFileFails = some e →
      (clearPairing env st).1 = .error (.ioError e) ∧
      (clearPairing env st).2.pairingFile = st.pairingFile) := by
  cases h : env.writeFileFails with
  | none => simp [clearPairing, h]
  | some e => simp [clearPairing, h]

/-- A collaborator environment whose pairing-key file write fails. -/
def envWriteFail : Env := { envBase with writeFileFails := some (("EACCES").toList) }

/-- A state with a non-empty in-memory pairing map and a non-empty
persisted pairing file. -/
def stPairing : LocalkitState :=
  { initState (some [((("c1").toList), (("k1").toList))]) with
      pairingKeys := [((("c1").toList), (("k1").toList))] }

/-- Witness for C8: clearing with a failing write rejects with the write
error, empties the in-memory map anyway, and leaves the file as it was;
clearing with a succeeding write persists the empty map. -/
theorem clearPairing_spec_witness :
    (clearPairing envWriteFail stPairing).2.pairingKeys = [] ∧
    (clearPairing envWriteFail stPairing).1 =
      .error (.ioError (("EACCES").toList)) ∧
    (clearPairing envWriteFail stPairing).2.pairingFile =
      stPairing.pairingFile ∧
    (clearPairing envBase stPairing).2.pairingFile = some [] := by
  refine ⟨(clearPairing_spec envWriteFail stPairing).1, ?_, ?_, ?_⟩
  · exact ((clearPairing_spec envWriteFail stPairing).2.2.2
      (("EACCES").toList) rfl).1
  · exact ((clearPairing_spec envWriteFail stPairing).2.2.2
      (("EACCES").toList) rfl).2
  · exact (clearPairing_spec envBase stPairing).2.2.1 rfl

/-- C9: when the broadcast step runs with no HTTP listener bound (while the
timer is armed), it logs the missing-port condition, cancels the recurring
timer and marks the transmitter stopped, and it issues no UDP send on that
tick. -/
theorem sendBeacon_noListener (env : Env) (st : LocalkitState)
    (h1 : st.server = none) (h2 : st.interval = true) :
    (sendBeacon env st).1.loggedNoPort = true ∧
    (sendBeacon env st).1.sends = [] ∧
    (sendBeacon env st).2.interval = false ∧
    (sendBeacon env st).2.beaconTransmitterRunning = false := by
  simp [sendBeacon, h1, stopBeaconTransmitter, h2]

/-- A state whose beacon timer is armed and whose HTTP listener is not
bound. -/
def stBeacon : LocalkitState :=
  { initState none with interval := true, beaconTransmitterRunning := true }

/-- Witness for C9 at a concrete armed-timer, no-listener state. -/
theorem sendBeacon_noListener_witness :
    (sendBeacon envBase stBeacon).1.loggedNoPort = true ∧
    (sendBeacon envBase stBeacon).1.sends = [] ∧
    (sendBeacon envBase stBeacon).2.interval = false ∧
    (sendBeacon envBase stBeacon).2.beaconTransmitterRunning = false :=
  sendBeacon_noListener envBase stBeacon rfl rfl

theorem startWatchLoop_eq (env : Env) :
    ∀ (l : List (JStr × Project)) (p0 s0 : List JStr),
      startWatchLoop env (p0, s0) l =
        (p0 ++ (l.filter (fun kv =>
            (env.runThrows (joinPath kv.2.path wwwJ)).isNone)).map
            (fun kv => joinPath kv.2.path wwwJ),
         s0 ++ (l.filter (fun kv =>
            (env.runThrows (joinPath kv.2.path wwwJ)).isNone)).map Prod.fst) := by
  intro l
  induction l with
  | nil => intro p0 s0; simp [startWatchLoop]
  | cons kv rest ih =>
    intro p0 s0
    cases h : env.runThrows (joinPath kv.2.path wwwJ) with
    | some e => simp [startWatchLoop, h, ih]
    | none => simp [startWatchLoop, h, ih]

/-- C4: `startWatch` always resolves, and it resolves with exactly the
watch directories it actually attached to: the `www` directories of those
registered projects whose watcher was idle when the call began and whose
watcher start did not throw. -/
theorem startWatch_resolves_exactly (env : Env) (st : LocalkitState) :
    ∃ paths, (startWatch env st).1 = .ok paths ∧
      ∀ d, d ∈ paths ↔ ∃ i proj, (i, proj) ∈ st.projects ∧
        proj.fileWatcherRunning = false ∧ d = joinPath proj.path wwwJ ∧
        env.runThrows d = none := by
  refine ⟨((st.projects.filter (fun kv => kv.2.fileWatcherRunning = false)).filter
      (fun kv => (env.runThrows (joinPath kv.2.path wwwJ)).isNone)).map
      (fun kv => joinPath kv.2.path wwwJ), ?_, ?_⟩
  · simp [startWatch, startWatchLoop_eq]
  · intro d
    constructor
    · intro hd
      rcases List.mem_map.mp hd with ⟨kv, hkv, hd2⟩
      rcases List.mem_filter.mp hkv with ⟨hkv1, hok⟩
      rcases List.mem_filter.mp hkv1 with ⟨hmem, hidle⟩
      refine ⟨kv.1, kv.2, hmem, by simpa using hidle, hd2.symm, ?_⟩
      rw [← hd2]
      simpa [Option.isNone_iff_eq_none] using hok
    · rintro ⟨i, proj, hmem, hidle, hd2, hok⟩
      subst hd2
      refine List.mem_map.mpr ⟨(i, proj), ?_, rfl⟩
      refine List.mem_filter.mpr ⟨List.mem_filter.mpr ⟨hmem, by simp [hidle]⟩, ?_⟩
      simp [hok]

theorem addProject_flag (env : Env) (st : LocalkitState) (p : JStr) :
    ((addProject env st p).2).isWatchingFlag = st.isWatchingFlag := by
  unfold addProject
  repeat' split
  all_goals rfl

theorem removeProject_flag (env : Env) (st : LocalkitState) (p : JStr) :
    ((removeProject env st p).2).isWatchingFlag = st.isWatchingFlag := by
  unfold removeProject
  repeat' split
  all_goals rfl

theorem startWatch_flag (env : Env) (st : LocalkitState) :
    ((startWatch env st).2).isWatchingFlag = false := rfl

theorem stopWatch_flag (env : Env) (st : LocalkitState)
    (h : st.isWatchingFlag = false) :
    ((stopWatch env st).2).isWatchingFlag = false := by
  unfold stopWatch
  simp only [h]
  split <;> rfl

theorem startWatchProject_flag (env : Env) (st : LocalkitState) (p : JStr) :
    ((startWatchProject env st p).2).isWatchingFlag = st.isWatchingFlag := by
  unfold startWatchProject
  split
  · rfl
  · simp only []
    split
    · rfl
    · split <;> rfl

theorem stopWatchProject_flag (env : Env) (st : LocalkitState) (p : JStr) :
    ((stopWatchProject env st p).2).isWatchingFlag = st.isWatchingFlag := by
  unfold stopWatchProject
  split
  · rfl
  · simp only []
    split
    · split <;> rfl
    · rfl

theorem runAdds_cons (env : Env) (st : LocalkitState) (p : JStr) (ps : List JStr) :
    runAdds env st (p :: ps) =
      ((addProject env st p).1 :: (runAdds env (addProject env st p).2 ps).1,
       (runAdds env (addProject env st p).2 ps).2) := rfl

theorem runRemoves_cons (env : Env) (st : LocalkitState) (p : JStr)
    (ps : List JStr) :
    runRemoves env st (p :: ps) =
      ((removeProject env st p).1 ::
         (runRemoves env (removeProject env st p).2 ps).1,
       (runRemoves env (removeProject env st p).2 ps).2) := rfl

theorem runAdds_flag (env : Env) : ∀ (ps : List JStr) (st : LocalkitState),
    ((runAdds env st ps).2).isWatchingFlag = st.isWatchingFlag := by
  intro ps
  induction ps with
  | nil => intro st; rfl
  | cons p rest ih =>
    intro st
    rw [runAdds_cons]
    exact (ih _).trans (addProject_flag env st p)

theorem runRemoves_flag (env : Env) : ∀ (ps : List JStr) (st : LocalkitState),
    ((runRemoves env st ps).2).isWatchingFlag = st.isWatchingFlag := by
  intro ps
  induction ps with
  | nil => intro st; rfl
  | cons p rest ih =>
    intro st
    rw [runRemoves_cons]
    exact (ih _).trans (removeProject_flag env st p)

theorem setProjects_flag (env : Env) (st : LocalkitState) (pl : List JStr) :
    ((setProjects env st pl).2).isWatchingFlag = st.isWatchingFlag := by
  cases h : resolveAll env pl with
  | error e => simp [setProjects, h]
  | ok pairs =>
    unfold setProjects
    rw [h]
    show ((runRemoves env (runAdds env st (addPathsOf st pairs)).2
        (removePathsOf st pl)).2).isWatchingFlag = st.isWatchingFlag
    rw [runRemoves_flag, runAdds_flag]

theorem clearPairing_flag (env : Env) (st : LocalkitState) :
    ((clearPairing env st).2).isWatchingFlag = st.isWatchingFlag := by
  unfold clearPairing
  repeat' split
  all_goals rfl

theorem startBeaconTransmitter_flag (env : Env) (st : LocalkitState) :
    ((startBeaconTransmitter env st).2).isWatchingFlag = st.isWatchingFlag := by
  unfold startBeaconTransmitter
  split <;> rfl

theorem stopBeaconTransmitter_flag (st : LocalkitState) :
    ((stopBeaconTransmitter st).2).isWatchingFlag = st.isWatchingFlag := by
  unfold stopBeaconTransmitter
  split <;> rfl

theorem sendBeacon_flag (env : Env) (st : LocalkitState) :
    ((sendBeacon env st).2).isWatchingFlag = st.isWatchingFlag := by
  unfold sendBeacon stopBeaconTransmitter
  split
  · simp only []
    split <;> rfl
  · rfl

theorem startHttpServer_flag (e : Option JStr) (st : LocalkitState) (port : Nat) :
    ((startHttpServer e st port).2).isWatchingFlag = st.isWatchingFlag := by
  unfold startHttpServer
  split <;> rfl

theorem stopHttpServer_flag (e : Option JStr) (st : LocalkitState) :
    ((stopHttpServer e st).2).isWatchingFlag = st.isWatchingFlag := by
  unfold stopHttpServer
  split <;> rfl

/-- In every reachable state the cached global watch flag is `false`: the
source never assigns `true` to it. -/
theorem reachable_flag : ∀ {st : LocalkitState}, Reachable st →
    st.isWatchingFlag = false := by
  intro st h
  induction h with
  | init d => rfl
  | loadPairing m _ ih => exact ih
  | add env p _ ih => rw [addProject_flag]; exact ih
  | remove env p _ ih => rw [removeProject_flag]; exact ih
  | startW env _ _ => exact startWatch_flag env _
  | stopW env _ ih => exact stopWatch_flag env _ ih
  | startWP env p _ ih => rw [startWatchProject_flag]; exact ih
  | stopWP env p _ ih => rw [stopWatchProject_flag]; exact ih
  | setP env pl _ ih => rw [setProjects_flag]; exact ih
  | clearP env _ ih => rw [clearPairing_flag]; exact ih
  | startBT env _ ih => rw [startBeaconTransmitter_flag]; exact ih
  | stopBT _ ih => rw [stopBeaconTransmitter_flag]; exact ih
  | beaconTick env _ ih => rw [sendBeacon_flag]; exact ih
  | startHttp e port _ ih => rw [startHttpServer_flag]; exact ih
  | stopHttp e _ ih => rw [stopHttpServer_flag]; exact ih

/-- C5: in every reachable state, after `startWatch` completes and after
`stopWatch` completes (whether it resolved or rejected), the global
`isWatching` query reads `false`, whatever per-project watch states the
call produced. -/
theorem isWatching_false_after_aggregate (env : Env) (st : LocalkitState)
    (h : Reachable st) :
    isWatching (startWatch env st).2 = false ∧
    isWatching (stopWatch env st).2 = false :=
  ⟨startWatch_flag env st, stopWatch_flag env st (reachable_flag h)⟩

/-- Witness for C5 at the constructor state. -/
theorem isWatching_false_after_aggregate_witness :
    isWatching (startWatch envBase (initState none)).2 = false ∧
    isWatching (stopWatch envBase (initState none)).2 = false :=
  isWatching_false_after_aggregate envBase (initState none) (Reachable.init none)

theorem splitSlash_ne_nil (l : JStr) : splitSlash l ≠ [] := by
  cases l with
  | nil => simp [splitSlash]
  | cons c rest =>
    rw [splitSlash]
    by_cases h : c = '/'
    · simp [h]
    · simp only [if_neg h]
      cases hs : splitSlash rest <;> simp

theorem splitSlash_cons (l : JStr) :
    ∃ g gs, splitSlash l = g :: gs ∧ startsDot g = startsDot l := by
  cases l with
  | nil => exact ⟨[], [], rfl, rfl⟩
  | cons c rest =>
    by_cases h : c = '/'
    · subst h
      refine ⟨[], splitSlash rest, by simp [splitSlash], ?_⟩
      simp [startsDot]
    · cases hs : splitSlash rest with
      | nil => exact absurd hs (splitSlash_ne_nil rest)
      | cons g gs =>
        refine ⟨c :: g, gs, ?_, ?_⟩
        · rw [splitSlash, if_neg h, hs]
        · simp [startsDot]

theorem hasDotSlash_eq (l : JStr) :
    hasDotSlash l = ((splitSlash l).tail).any startsDot := by
  induction l with
  | nil => rfl
  | cons c rest ih =>
    rw [hasDotSlash]
    obtain ⟨g, gs, hs, hg⟩ := splitSlash_cons rest
    rw [hs] at ih
    by_cases h : c = '/'
    · subst h
      rw [splitSlash, if_pos rfl, hs]
      simp only [List.tail_cons, List.any_cons]
      rw [ih, hg]
      simp
    · rw [splitSlash, if_neg h, hs]
      simp only [List.tail_cons]
      rw [ih]
      simp [h]

theorem any_startsDot_filter (xs : List JStr) :
    (xs.filter (fun c => c ≠ [])).any startsDot = xs.any startsDot := by
  induction xs with
  | nil => rfl
  | cons g gs ih =>
    cases g with
    | nil =>
      have h1 : List.filter (fun c => decide (c ≠ [])) ([] :: gs) =
          List.filter (fun c => decide (c ≠ [])) gs := by simp
      rw [h1, ih, List.any_cons]
      simp [startsDot]
    | cons c rest =>
      have h1 : List.filter (fun x => decide (x ≠ [])) ((c :: rest) :: gs) =
          (c :: rest) :: List.filter (fun x => decide (x ≠ [])) gs := by simp
      rw [h1, List.any_cons, List.any_cons, ih]

theorem hasHiddenComponent_slash (rest : JStr) :
    hasHiddenComponent ('/' :: rest) = hasDotSlash ('/' :: rest) := by
  rw [hasHiddenComponent, components, any_startsDot_filter, hasDotSlash_eq]
  rw [splitSlash, if_pos rfl]
  simp [startsDot]

theorem fileFilter_eq_spec (rest : JStr) :
    fileFilter ('/' :: rest) =
      (!(hasHiddenComponent ('/' :: rest)) &&
        (underWwwRoot ('/' :: rest) || noDirComponent ('/' :: rest))) := by
  rw [fileFilter, hasHiddenComponent_slash]
  have hstep : List.isPrefixOf (("/www/").toList) ('/' :: rest) =
      List.isPrefixOf (("www/").toList) rest := by
    show (('/' == '/') && List.isPrefixOf (("www/").toList) rest) = _
    simp
  cases hd : hasDotSlash ('/' :: rest) with
  | true => simp
  | false =>
    have hif : (if (false = true) then false else regexWwwTest ('/' :: rest)) =
        regexWwwTest ('/' :: rest) := by simp
    rw [hif, regexWwwTest, underWwwRoot, noDirComponent, hstep]
    simp

theorem keys_getProjectFilesFrom (files : List (JStr × JStr)) :
    (getProjectFilesFrom files).map Prod.fst =
      ((files.map Prod.fst).filter fileFilter).filter
        (fun fn => (files.lookup fn).isSome) := by
  rw [getProjectFilesFrom]
  generalize (files.map Prod.fst).filter fileFilter = ks
  induction ks with
  | nil => rfl
  | cons fn ks ih =>
    cases hl : files.lookup fn with
    | none => simp [hl, ih]
    | some v => simp [hl, ih]

/-- C2: for a registered project, `getProjectFiles` keeps a key of the
collaborator enumeration (keys are rooted at a leading separator, the
collaborator key format) in its result exactly when no path component of
the key begins with a dot and the key either lives under the top-level
`www` content root or has no directory component at all. -/
theorem getProjectFiles_keeps_iff (env : Env) (st : LocalkitState)
    (projectId : JStr) (proj : Project) (files res : List (JStr × JStr))
    (h1 : st.projects.lookup projectId = some proj)
    (h2 : env.localFiles proj.path = .ok files)
    (h3 : getProjectFiles env st projectId = .ok res)
    (k : JStr) (hk : k ∈ files.map Prod.fst) (hroot : k.head? = some '/') :
    k ∈ res.map Prod.fst ↔
      (hasHiddenComponent k = false ∧
        (underWwwRoot k = true ∨ noDirComponent k = true)) := by
  have hres : res = getProjectFilesFrom files := by
    rw [getProjectFiles, h1] at h3
    simp only [] at h3
    rw [h2] at h3
    simp only [Except.ok.injEq] at h3
    exact h3.symm
  subst hres
  rw [keys_getProjectFilesFrom]
  rw [List.mem_filter, List.mem_filter]
  cases k with
  | nil => simp at hroot
  | cons c rest =>
    simp only [List.head?_cons, Option.some.injEq] at hroot
    subst hroot
    rw [fileFilter_eq_spec]
    constructor
    · rintro ⟨⟨-, hff⟩, -⟩
      simp only [Bool.and_eq_true, Bool.or_eq_true, Bool.not_eq_true'] at hff
      exact ⟨hff.1, hff.2⟩
    · rintro ⟨hh, hwd⟩
      refine ⟨⟨hk, ?_⟩, ?_⟩
      · simp only [Bool.and_eq_true, Bool.or_eq_true, Bool.not_eq_true']
        exact ⟨hh, hwd⟩
      · simp [lookup_isSome_of_mem_keys hk]

/-- The collaborator enumeration used by the C2 and C10 witnesses. -/
def filesC2 : List (JStr × JStr) :=
  [((("/www/index.html").toList), (("a").toList)),
   ((("/www/.git/config").toList), (("b").toList)),
   ((("/README.md").toList), (("c").toList)),
   ((("/node_modules/pkg/www/a.js").toList), (("d").toList))]

/-- A collaborator environment whose enumeration is `filesC2`. -/
def envC2 : Env := { envBase with localFiles := fun _ => .ok filesC2 }

/-- A one-project registry for the C2 and C10 witnesses. -/
def stC2 : LocalkitState :=
  { initState none with projects := [(("p1").toList, ⟨false, ("/proj").toList⟩)] }

/-- Witness for C2: `/www/index.html` is kept, `/www/.git/config` is not. -/
theorem getProjectFiles_keeps_iff_witness :
    (("/www/index.html").toList) ∈ (getProjectFilesFrom filesC2).map Prod.fst ∧
    ¬ ((("/www/.git/config").toList) ∈
      (getProjectFilesFrom filesC2).map Prod.fst) := by
  constructor
  · exact (getProjectFiles_keeps_iff envC2 stC2 (("p1").toList)
      ⟨false, ("/proj").toList⟩ filesC2 (getProjectFilesFrom filesC2)
      (by decide) rfl rfl (("/www/index.html").toList) (by decide) rfl).mpr
      (by decide)
  · intro hmem
    have h2 := (getProjectFiles_keeps_iff envC2 stC2 (("p1").toList)
      ⟨false, ("/proj").toList⟩ filesC2 (getProjectFilesFrom filesC2)
      (by decide) rfl rfl (("/www/.git/config").toList) (by decide) rfl).mp hmem
    exact absurd h2 (by decide)

/-- C10: the result of `getProjectFiles` is a restriction of the map
produced by the identity collaborator: every entry of the result has its
key bound, in the collaborator map, to the identical value, and the pair
itself occurs in the collaborator map, so no key is added or renamed and
no surviving value is changed by the filtering step. -/
theorem getProjectFiles_restriction (env : Env) (st : LocalkitState)
    (projectId : JStr) (proj : Project) (files res : List (JStr × JStr))
    (h1 : st.projects.lookup projectId = some proj)
    (h2 : env.localFiles proj.path = .ok files)
    (h3 : getProjectFiles env st projectId = .ok res) :
    ∀ kv ∈ res, files.lookup kv.1 = some kv.2 ∧ kv ∈ files := by
  have hres : res = getProjectFilesFrom files := by
    rw [getProjectFiles, h1] at h3
    simp only [] at h3
    rw [h2] at h3
    simp only [Except.ok.injEq] at h3
    exact h3.symm
  subst hres
  intro kv hkv
  rw [getProjectFilesFrom] at hkv
  rcases List.mem_filterMap.mp hkv with ⟨fn, hfn, hsome⟩
  rcases Option.map_eq_some'.mp hsome with ⟨v, hl, hkveq⟩
  cases hkveq
  exact ⟨hl, mem_of_lookup_eq_some hl⟩

/-- Witness for C10 at the entry `/www/index.html` of the concrete
enumeration. -/
theorem getProjectFiles_restriction_witness :
    filesC2.lookup (("/www/index.html").toList) = some (("a").toList) ∧
    ((("/www/index.html").toList, ("a").toList)) ∈ filesC2 :=
  getProjectFiles_restriction envC2 stC2 (("p1").toList)
    ⟨false, ("/proj").toList⟩ filesC2 (getProjectFilesFrom filesC2)
    (by decide) rfl rfl ((("/www/index.html").toList, ("a").toList)) (by decide)

theorem lookup_cons_eq {β : Type} (k1 : JStr) (v1 : β)
    (rest : List (JStr × β)) (k : JStr) (h : k = k1) :
    (((k1, v1) :: rest).lookup k) = some v1 := by
  have hb : (k == k1) = true := beq_iff_eq.mpr h
  rw [List.lookup, hb]

theorem lookup_cons_ne {β : Type} (k1 : JStr) (v1 : β)
    (rest : List (JStr × β)) (k : JStr) (h : ¬ k = k1) :
    (((k1, v1) :: rest).lookup k) = rest.lookup k := by
  have hb : (k == k1) = false := beq_eq_false_iff_ne.mpr h
  rw [List.lookup, hb]

theorem lookup_append_left {β : Type} (l1 l2 : List (JStr × β)) (k : JStr)
    (h : (l1.lookup k).isSome) : ((l1 ++ l2).lookup k) = l1.lookup k := by
  induction l1 with
  | nil => simp [List.lookup] at h
  | cons kv rest ih =>
    obtain ⟨k1, v1⟩ := kv
    by_cases hk : k = k1
    · rw [List.cons_append, lookup_cons_eq k1 v1 _ k hk, lookup_cons_eq k1 v1 _ k hk]
    · rw [lookup_cons_ne k1 v1 _ k hk] at h
      rw [List.cons_append, lookup_cons_ne k1 v1 _ k hk,
        lookup_cons_ne k1 v1 _ k hk]
      exact ih h

theorem lookup_dropId (projects : List (JStr × Project)) (i j : JStr)
    (h : ¬ i = j) : ((dropId projects j).lookup i) = projects.lookup i := by
  induction projects with
  | nil => rfl
  | cons kv rest ih =>
    obtain ⟨k1, v1⟩ := kv
    by_cases hk : k1 = j
    · subst hk
      have : dropId ((k1, v1) :: rest) k1 = dropId rest k1 := by
        simp [dropId]
      rw [this, ih, lookup_cons_ne k1 v1 rest i h]
    · have : dropId ((k1, v1) :: rest) j = (k1, v1) :: dropId rest j := by
        simp [dropId, hk]
      rw [this]
      by_cases hik : i = k1
      · rw [lookup_cons_eq k1 v1 _ i hik, lookup_cons_eq k1 v1 _ i hik]
      · rw [lookup_cons_ne k1 v1 _ i hik, lookup_cons_ne k1 v1 _ i hik, ih]

theorem contains_eq_decide_mem (l : List JStr) (k : JStr) :
    l.contains k = decide (k ∈ l) := by
  induction l with
  | nil => rfl
  | cons x xs ih =>
    by_cases h : k = x
    · subst h
      simp
    · simp [h, ih]

theorem lookup_append_right {β : Type} (l1 l2 : List (JStr × β)) (k : JStr)
    (h : l1.lookup k = none) : ((l1 ++ l2).lookup k) = l2.lookup k := by
  induction l1 with
  | nil => rfl
  | cons kv rest ih =>
    obtain ⟨k1, v1⟩ := kv
    by_cases hk : k = k1
    · rw [lookup_cons_eq k1 v1 _ k hk] at h; cases h
    · rw [lookup_cons_ne k1 v1 _ k hk] at h
      rw [List.cons_append, lookup_cons_ne k1 v1 _ k hk]
      exact ih h

theorem resolveAll_ok (env : Env) (idOf : JStr → JStr)
    (hpid : ∀ p, env.pid p = .ok (idOf p)) :
    ∀ pl : List JStr, resolveAll env pl = .ok (pl.map fun p => (p, idOf p)) := by
  intro pl
  induction pl with
  | nil => rfl
  | cons p ps ih => simp [resolveAll, hpid p, ih]

theorem addProject_ok (env : Env) (st : LocalkitState) (p i : JStr)
    (hpid : env.pid p = .ok i)
    (hwww : env.hasWww p = true) (hflag : st.isWatchingFlag = false) :
    addProject env st p =
      (.ok i,
       if (st.projects.lookup i).isSome then st
       else { st with projects := st.projects ++ [(i, ⟨false, p⟩)] }) := by
  by_cases hl : (st.projects.lookup i).isSome
  · simp [addProject, hpid, hwww, hl]
  · simp [addProject, hpid, hwww, hl, hflag]

theorem qAllOpt_ok : ∀ (l : List (Option (Except Err JStr))),
    (∀ r ∈ l, ∃ v, r = some (Except.ok v)) →
    ∃ vs, qAllOpt l = some (Except.ok vs) := by
  intro l
  induction l with
  | nil => exact fun _ => ⟨[], rfl⟩
  | cons r rest ih =>
    intro h
    obtain ⟨v, hv⟩ := h r (by simp)
    obtain ⟨vs, hvs⟩ := ih (fun r2 hr2 => h r2 (by simp [hr2]))
    subst hv
    exact ⟨v :: vs, by simp [qAllOpt, hvs]⟩

theorem runAdds_spec (env : Env) (idOf : JStr → JStr)
    (hpid : ∀ q, env.pid q = .ok (idOf q)) :
    ∀ (ps : List JStr) (st : LocalkitState),
      (∀ p ∈ ps, env.hasWww p = true) →
      st.isWatchingFlag = false →
      (∀ r ∈ (runAdds env st ps).1, ∃ v, r = Except.ok v) ∧
      (∃ extra, (runAdds env st ps).2.projects = st.projects ++ extra ∧
        ∀ kv ∈ extra, kv.2.path ∈ ps ∧ kv.1 = idOf kv.2.path) ∧
      (∀ p ∈ ps, ((runAdds env st ps).2.projects.lookup (idOf p)).isSome) := by
  intro ps
  induction ps with
  | nil =>
    intro st hw hf
    exact ⟨by simp [runAdds], ⟨[], by simp [runAdds], by simp⟩, by simp⟩
  | cons p ps ih =>
    intro st hw hf
    have hadd := addProject_ok env st p (idOf p) (hpid p) (hw p (by simp)) hf
    by_cases hl : (st.projects.lookup (idOf p)).isSome
    · rw [if_pos hl] at hadd
      obtain ⟨houtc, ⟨extra, hprojs, hextra⟩, hlook⟩ :=
        ih st (fun q hq => hw q (by simp [hq])) hf
      refine ⟨?_, ⟨extra, ?_, ?_⟩, ?_⟩
      · intro r hr
        rw [runAdds_cons, hadd] at hr
        rcases List.mem_cons.mp hr with h | h
        · exact ⟨idOf p, h⟩
        · exact houtc r h
      · rw [runAdds_cons, hadd]
        exact hprojs
      · intro kv hkv
        obtain ⟨h1, h2⟩ := hextra kv hkv
        exact ⟨by simp [h1], h2⟩
      · intro q hq
        rw [runAdds_cons, hadd]
        rcases List.mem_cons.mp hq with h | h
        · subst h
          rw [hprojs]
          rw [lookup_append_left _ _ _ hl]
          exact hl
        · exact hlook q h
    · rw [if_neg hl] at hadd
      have hlnone : st.projects.lookup (idOf p) = none :=
        Option.not_isSome_iff_eq_none.mp hl
      obtain ⟨houtc, ⟨extra, hprojs, hextra⟩, hlook⟩ :=
        ih { st with projects := st.projects ++ [(idOf p, ⟨false, p⟩)] }
          (fun q hq => hw q (by simp [hq])) hf
      refine ⟨?_, ⟨(idOf p, ⟨false, p⟩) :: extra, ?_, ?_⟩, ?_⟩
      · intro r hr
        rw [runAdds_cons, hadd] at hr
        rcases List.mem_cons.mp hr with h | h
        · exact ⟨idOf p, h⟩
        · exact houtc r h
      · rw [runAdds_cons, hadd, hprojs]
        simp
      · intro kv hkv
        rcases List.mem_cons.mp hkv with h | h
        · subst h
          exact ⟨by simp, rfl⟩
        · obtain ⟨h1, h2⟩ := hextra kv h
          exact ⟨by simp [h1], h2⟩
      · intro q hq
        rw [runAdds_cons, hadd]
        rcases List.mem_cons.mp hq with h | h
        · subst h
          rw [hprojs]
          have hmid : ((st.projects ++
              [(idOf q, Project.mk false q)]).lookup (idOf q)).isSome := by
            rw [lookup_append_right _ _ _ hlnone]
            rw [lookup_cons_eq (idOf q) (Project.mk false q) [] (idOf q) rfl]
            rfl
          rw [lookup_append_left _ _ _ hmid]
          exact hmid
        · exact hlook q h

theorem runRemoves_spec (env : Env) (idOf : JStr → JStr)
    (hpid : ∀ q, env.pid q = .ok (idOf q))
    (hstop : ∀ i, env.stopThrows i = none) :
    ∀ (qs : List JStr) (st : LocalkitState),
      (∀ q ∈ qs, ((st.projects.lookup (idOf q)).isSome)) →
      ((qs.map idOf).Nodup) →
      (∀ r ∈ (runRemoves env st qs).1, ∃ v, r = some (Except.ok v)) ∧
      (runRemoves env st qs).2.projects =
        st.projects.filter (fun kv => decide (¬ kv.1 ∈ qs.map idOf)) := by
  intro qs
  induction qs with
  | nil =>
    intro st _ _
    refine ⟨by simp [runRemoves], ?_⟩
    show st.projects = _
    rw [List.filter_eq_self.mpr]
    intro kv _
    simp
  | cons q qs ih =>
    intro st hpresent hnd
    have h1 : (st.projects.lookup (idOf q)).isSome := hpresent q (by simp)
    obtain ⟨proj, hproj⟩ := Option.isSome_iff_exists.mp h1
    have hrem : removeProject env st q =
        (some (.ok (idOf q)),
         { st with projects := dropId st.projects (idOf q) }) := by
      simp [removeProject, hpid q, hproj, hstop]
    have hnd2 := hnd
    rw [List.map_cons, List.nodup_cons] at hnd2
    have hpres2 : ∀ q2 ∈ qs,
        (((dropId st.projects (idOf q)).lookup (idOf q2)).isSome) := by
      intro q2 hq2
      have hne : ¬ idOf q2 = idOf q := by
        intro heq
        exact hnd2.1 (heq ▸ List.mem_map_of_mem idOf hq2)
      rw [lookup_dropId _ _ _ hne]
      exact hpresent q2 (by simp [hq2])
    obtain ⟨houtc, hprojs⟩ :=
      ih { st with projects := dropId st.projects (idOf q) } hpres2 hnd2.2
    constructor
    · intro r hr
      rw [runRemoves_cons, hrem] at hr
      rcases List.mem_cons.mp hr with h | h
      · exact ⟨idOf q, h⟩
      · exact houtc r h
    · rw [runRemoves_cons, hrem, hprojs]
      show (dropId st.projects (idOf q)).filter _ = _
      rw [dropId, List.filter_filter]
      apply List.filter_congr
      intro kv _
      by_cases hx : kv.1 = idOf q <;> by_cases hy : kv.1 ∈ List.map idOf qs <;>
        simp [hx, hy]

/-- A collaborator where path resolution is the identity function and no
path has a `www` directory. -/
def envC6a : Env :=
  { envBase with pid := fun p => .ok p, hasWww := fun _ => false }

/-- Like `envC6a`, except that `/p2` does have a `www` directory. -/
def envC6b : Env :=
  { envBase with
    pid := fun p => .ok p,
    hasWww := fun p => p == ("/p2").toList }

/-- C6 as stated is refuted on the code: reconciling `[/p1, /p2]` on an
empty registry when both registrations fail rejects with the single error
of the first failed registration, although the per-item outcomes contain a
second, different failure; and the rejection value is identical to the one
produced when the second registration succeeds, so the reported failure
carries no per-item outcome set. -/
theorem setProjects_single_error_cex :
    (setProjects envC6a (initState none) [("/p1").toList, ("/p2").toList]).1 =
      some (.error (.missingWww (("/p1").toList))) ∧
    setProjectsOutcomes envC6a (initState none)
        [("/p1").toList, ("/p2").toList] =
      [some (.error (.missingWww (("/p1").toList))),
       some (.error (.missingWww (("/p2").toList)))] ∧
    (setProjects envC6a (initState none) [("/p1").toList, ("/p2").toList]).1 =
      (setProjects envC6b (initState none) [("/p1").toList, ("/p2").toList]).1 ∧
    setProjectsOutcomes envC6a (initState none)
        [("/p1").toList, ("/p2").toList] ≠
      setProjectsOutcomes envC6b (initState none)
        [("/p1").toList, ("/p2").toList] :=
  ⟨by decide, by decide, by decide, by decide⟩

/-- C6 (amended): `setProjects` registers every listed path whose id is not
yet present and unregisters every registered path absent from the list;
when id resolution and every individual operation succeed the call
resolves, and the final registry holds exactly the listed paths: each
listed path is registered under its resolved id, and every registered path
is listed.  On an individual failure the call rejects with the first
failing operation error alone, not with a per-item outcome set; the
additions and removals touch disjoint ids, and the sequential model
executes one linearization of the concurrent original. -/
theorem setProjects_reconcile (env : Env) (st : LocalkitState)
    (pathList : List JStr) (idOf : JStr → JStr)
    (hpid : ∀ p, env.pid p = .ok (idOf p))
    (hinj : ∀ a b, idOf a = idOf b → a = b)
    (hwww : ∀ p ∈ pathList, env.hasWww p = true)
    (hflag : st.isWatchingFlag = false)
    (hstop : ∀ i, env.stopThrows i = none)
    (hcons : ∀ kv ∈ st.projects, kv.1 = idOf kv.2.path)
    (hnodup : (st.projects.map Prod.fst).Nodup) :
    (∃ vs, (setProjects env st pathList).1 = some (.ok vs)) ∧
    (∀ p ∈ pathList, ∃ proj,
       (idOf p, proj) ∈ (setProjects env st pathList).2.projects ∧
       proj.path = p) ∧
    (∀ kv ∈ (setProjects env st pathList).2.projects,
       kv.2.path ∈ pathList) := by
  have heq : setProjects env st pathList =
      (qAllOpt ((runAdds env st
          (addPathsOf st (pathList.map (fun p => (p, idOf p))))).1.map some ++
         (runRemoves env (runAdds env st
            (addPathsOf st (pathList.map (fun p => (p, idOf p))))).2
           (removePathsOf st pathList)).1),
       (runRemoves env (runAdds env st
          (addPathsOf st (pathList.map (fun p => (p, idOf p))))).2
         (removePathsOf st pathList)).2) := by
    unfold setProjects
    rw [resolveAll_ok env idOf hpid pathList]
  have haddsub : ∀ q ∈ addPathsOf st (pathList.map (fun p => (p, idOf p))),
      q ∈ pathList := by
    intro q hq
    rw [addPathsOf] at hq
    rcases List.mem_map.mp hq with ⟨pi, hpi, rfl⟩
    rcases List.mem_map.mp (List.mem_filter.mp hpi).1 with ⟨p0, hp0, rfl⟩
    exact hp0
  have haddcover : ∀ p ∈ pathList, st.projects.lookup (idOf p) = none →
      p ∈ addPathsOf st (pathList.map (fun p => (p, idOf p))) := by
    intro p hp hnone
    rw [addPathsOf]
    refine List.mem_map.mpr ⟨(p, idOf p), ?_, rfl⟩
    refine List.mem_filter.mpr ⟨List.mem_map_of_mem _ hp, ?_⟩
    simp [hnone]
  obtain ⟨houtA, ⟨extra, hprojs1, hextra⟩, hlookA⟩ :=
    runAdds_spec env idOf hpid
      (addPathsOf st (pathList.map (fun p => (p, idOf p)))) st
      (fun q hq => hwww q (haddsub q hq)) hflag
  have hremfacts : ∀ q ∈ removePathsOf st pathList,
      (¬ q ∈ pathList) ∧ (st.projects.lookup (idOf q)).isSome := by
    intro q hq
    rw [removePathsOf] at hq
    rcases List.mem_map.mp hq with ⟨kv, hkv, rfl⟩
    obtain ⟨hkvmem, hkvpred⟩ := List.mem_filter.mp hkv
    have hcont : pathList.contains kv.2.path = false := of_decide_eq_true hkvpred
    rw [contains_eq_decide_mem] at hcont
    refine ⟨of_decide_eq_false hcont, ?_⟩
    have hkeys : kv.1 ∈ st.projects.map Prod.fst := List.mem_map_of_mem _ hkvmem
    rw [hcons kv hkvmem] at hkeys
    exact lookup_isSome_of_mem_keys hkeys
  have hrempresent1 : ∀ q ∈ removePathsOf st pathList,
      (((runAdds env st
          (addPathsOf st (pathList.map (fun p => (p, idOf p))))).2.projects.lookup
        (idOf q)).isSome) := by
    intro q hq
    rw [hprojs1, lookup_append_left _ _ _ (hremfacts q hq).2]
    exact (hremfacts q hq).2
  have hremnodup : ((removePathsOf st pathList).map idOf).Nodup := by
    rw [removePathsOf, List.map_map]
    have hcongr : (st.projects.filter
        (fun kv => pathList.contains kv.2.path = false)).map
          (idOf ∘ fun kv => kv.2.path) =
        (st.projects.filter
          (fun kv => pathList.contains kv.2.path = false)).map Prod.fst := by
      apply List.map_congr_left
      intro kv hkv
      exact (hcons kv (List.mem_filter.mp hkv).1).symm
    rw [hcongr]
    exact hnodup.sublist ((List.filter_sublist _).map Prod.fst)
  obtain ⟨houtR, hprojs2⟩ :=
    runRemoves_spec env idOf hpid hstop (removePathsOf st pathList)
      (runAdds env st (addPathsOf st (pathList.map (fun p => (p, idOf p))))).2
      hrempresent1 hremnodup
  have hcons1 : ∀ kv ∈ (runAdds env st
      (addPathsOf st (pathList.map (fun p => (p, idOf p))))).2.projects,
      kv.1 = idOf kv.2.path := by
    intro kv hkv
    rw [hprojs1] at hkv
    rcases List.mem_append.mp hkv with h | h
    · exact hcons kv h
    · exact (hextra kv h).2
  refine ⟨?_, ?_, ?_⟩
  · rw [heq]
    apply qAllOpt_ok
    intro r hr
    rcases List.mem_append.mp hr with h | h
    · rcases List.mem_map.mp h with ⟨r0, hr0, rfl⟩
      obtain ⟨v, rfl⟩ := houtA r0 hr0
      exact ⟨v, rfl⟩
    · exact houtR r h
  · intro p hp
    rw [heq]
    have hlook1 : (((runAdds env st
        (addPathsOf st (pathList.map (fun p => (p, idOf p))))).2.projects.lookup
        (idOf p)).isSome) := by
      by_cases hin : p ∈ addPathsOf st (pathList.map (fun p => (p, idOf p)))
      · exact hlookA p hin
      · cases hc : st.projects.lookup (idOf p) with
        | none => exact absurd (haddcover p hp hc) hin
        | some proj =>
          rw [hprojs1, lookup_append_left _ _ _ (by simp [hc])]
          simp [hc]
    obtain ⟨proj, hproj⟩ := Option.isSome_iff_exists.mp hlook1
    have hmem1 := mem_of_lookup_eq_some hproj
    have hpath : proj.path = p := (hinj p proj.path (hcons1 _ hmem1)).symm
    refine ⟨proj, ?_, hpath⟩
    show (idOf p, proj) ∈ (runRemoves env (runAdds env st
      (addPathsOf st (pathList.map (fun p => (p, idOf p))))).2
      (removePathsOf st pathList)).2.projects
    rw [hprojs2]
    refine List.mem_filter.mpr ⟨hmem1, ?_⟩
    apply decide_eq_true
    intro hbad
    rcases List.mem_map.mp hbad with ⟨q, hqmem, hqeq⟩
    exact (hremfacts q hqmem).1 (by rw [hinj q p hqeq]; exact hp)
  · intro kv hkv
    rw [heq] at hkv
    simp only [] at hkv
    rw [hprojs2] at hkv
    obtain ⟨hkv1, hkvpred⟩ := List.mem_filter.mp hkv
    rw [hprojs1] at hkv1
    rcases List.mem_append.mp hkv1 with h | h
    · by_contra hnot
      have hcont : pathList.contains kv.2.path = false := by
        rw [contains_eq_decide_mem]
        exact decide_eq_false hnot
      have hinrem : kv.2.path ∈ removePathsOf st pathList := by
        rw [removePathsOf]
        refine List.mem_map.mpr ⟨kv, ?_, rfl⟩
        refine List.mem_filter.mpr ⟨h, ?_⟩
        simpa using hnot
      have hidin : kv.1 ∈ (removePathsOf st pathList).map idOf := by
        rw [hcons kv h]
        exact List.mem_map_of_mem idOf hinrem
      exact (of_decide_eq_true hkvpred) hidin
    · exact haddsub _ (hextra kv h).1

/-- A collaborator for the C6 witness: resolution is the identity function,
every path has a `www` directory, watchers start and stop cleanly. -/
def envC6w : Env := { envBase with pid := fun p => .ok p }

/-- A registry holding one project at `/old`, keyed by its own path. -/
def stC6w : LocalkitState :=
  { initState none with
      projects := [(("/old").toList, ⟨false, ("/old").toList⟩)] }

/-- Witness for C6: reconciling to the single-path list `[/new]` resolves,
registers `/new` and leaves no other project registered. -/
theorem setProjects_reconcile_witness :
    (∃ vs, (setProjects envC6w stC6w [("/new").toList]).1 = some (.ok vs)) ∧
    (∀ p ∈ [("/new").toList], ∃ proj,
       (p, proj) ∈ (setProjects envC6w stC6w [("/new").toList]).2.projects ∧
       proj.path = p) ∧
    (∀ kv ∈ (setProjects envC6w stC6w [("/new").toList]).2.projects,
       kv.2.path ∈ [("/new").toList]) :=
  setProjects_reconcile envC6w stC6w [("/new").toList] (fun p => p)
    (fun p => rfl) (fun a b h => h) (by decide) rfl (fun i => rfl)
    (by decide) (by decide)
